import Mathlib

/-!
Verification of the site-record enrichment pipeline of TRACE-search
(`src/sites/refresh_privacy_badges.py`): the `clean` normalizer, the
`get_rating` resolver, the `get_site_names` aggregator, the progress
reporter and the orchestration loop.

Python strings are modelled as lists of Unicode code points
(`List Nat`); `str.lower` is modelled on the ASCII range (every string
the repository manipulates is ASCII).  Python's `try/except` blocks are
modelled with `Except`/`Option` values.
-/

/-- Converts a Lean string literal into the code-point model of a
Python string. -/
def str (s : String) : List Nat := s.toList.map Char.toNat

/-- Does `s` start with `pat`?  (Prefix comparison, as Python's
`str.replace` scanner performs at each position.) -/
def startsWith : List Nat → List Nat → Bool
  | [], _ => true
  | _ :: _, [] => false
  | p :: ps, c :: cs => p == c && startsWith ps cs

/-- Does the pattern occur as a contiguous substring of `s`?
(Python's `old in s`.) -/
def containsSub (pat : List Nat) : List Nat → Bool
  | [] => startsWith pat []
  | c :: cs => startsWith pat (c :: cs) || containsSub pat cs

/-- Python `s.replace(old, "")` for the non-empty pattern `p :: ps`:
scan left to right, delete each non-overlapping occurrence, and resume
scanning right after the deleted occurrence. -/
def removeAll (p : Nat) (ps : List Nat) : List Nat → List Nat
  | [] => []
  | c :: cs =>
    if startsWith (p :: ps) (c :: cs) then removeAll p ps (cs.drop ps.length)
    else c :: removeAll p ps cs
termination_by s => s.length
decreasing_by
  · simp [List.length_drop]; omega
  · simp

/-- ASCII lowercasing of a single code point (the model of Python's
`str.lower` on the ASCII strings this repository handles). -/
def lowerCp (n : Nat) : Nat := if 65 ≤ n ∧ n ≤ 90 then n + 32 else n

/-- The normalizer `clean` of `refresh_privacy_badges.py`: replace every occurrence
of `"http://"`, then of `"https://"`, then of `"www."`, then of `"/"`,
each by the empty string, and finally lowercase.  (104, 119 and 47 are
the code points of `h`, `w` and `/`.) -/
def clean (s : List Nat) : List Nat :=
  (removeAll 47 []
    (removeAll 119 (str "ww.")
      (removeAll 104 (str "ttps://")
        (removeAll 104 (str "ttp://") s)))).map lowerCp

/-- Strip `pat` once, and only when it stands at the very front of `s`. -/
def stripOnce (pat : List Nat) (s : List Nat) : List Nat :=
  if startsWith pat s then s.drop pat.length else s

/-- Modelled from the spec's words (for the comparison in claim C3,
not from the source): strip the scheme prefixes `http://` / `https://`
and a leading `www.` at the front only, remove the path separators,
then lowercase. -/
def specClean (s : List Nat) : List Nat :=
  (removeAll 47 []
    (stripOnce (str "www.")
      (stripOnce (str "https://")
        (stripOnce (str "http://") s)))).map lowerCp

/-- Every code point of `removeAll p ps s` already occurs in `s`:
replacing by the empty string only deletes characters. -/
theorem mem_of_mem_removeAll {a p : Nat} {ps : List Nat} :
    ∀ {s : List Nat}, a ∈ removeAll p ps s → a ∈ s := by
  intro s
  induction s using removeAll.induct p ps with
  | case1 => simp [removeAll]
  | case2 c cs hpre ih =>
    rw [removeAll, if_pos hpre]
    intro h
    exact List.mem_cons_of_mem c (List.mem_of_mem_drop (ih h))
  | case3 c cs hpre ih =>
    rw [removeAll, if_neg hpre]
    intro h
    rcases List.mem_cons.mp h with h | h
    · exact h ▸ List.mem_cons_self a cs
    · exact List.mem_cons_of_mem c (ih h)

/-- A matched prefix only uses code points of the scanned string. -/
theorem mem_of_startsWith {pat s : List Nat} (h : startsWith pat s = true) :
    ∀ a ∈ pat, a ∈ s := by
  induction pat generalizing s with
  | nil => simp
  | cons p ps ih =>
    cases s with
    | nil => simp [startsWith] at h
    | cons c cs =>
      rw [startsWith, Bool.and_eq_true, beq_iff_eq] at h
      intro a ha
      rcases List.mem_cons.mp ha with rfl | ha
      · exact h.1 ▸ List.mem_cons_self c cs
      · exact List.mem_cons_of_mem c (ih h.2 a ha)

/-- A substring occurrence only uses code points of the string. -/
theorem mem_of_containsSub {pat s : List Nat} (h : containsSub pat s = true) :
    ∀ a ∈ pat, a ∈ s := by
  induction s with
  | nil => exact mem_of_startsWith (by simpa [containsSub] using h)
  | cons c cs ih =>
    rw [containsSub, Bool.or_eq_true] at h
    rcases h with h | h
    · exact mem_of_startsWith h
    · intro a ha
      exact List.mem_cons_of_mem c (ih h a ha)

/-- If the pattern occurs nowhere in `s`, Python's `replace` returns
`s` unchanged. -/
theorem removeAll_of_not_containsSub {p : Nat} {ps : List Nat} :
    ∀ {s : List Nat}, containsSub (p :: ps) s = false → removeAll p ps s = s := by
  intro s
  induction s using removeAll.induct p ps with
  | case1 => simp [removeAll]
  | case2 c cs hpre ih =>
    intro h
    rw [containsSub, Bool.or_eq_false_iff] at h
    exact absurd hpre (by simp [h.1])
  | case3 c cs hpre ih =>
    intro h
    rw [containsSub, Bool.or_eq_false_iff] at h
    rw [removeAll, if_neg hpre, ih h.2]

/-- Removing a pattern that mentions a code point absent from `s`
leaves `s` unchanged. -/
theorem removeAll_of_not_mem {p a : Nat} {ps s : List Nat}
    (hpat : a ∈ p :: ps) (hs : a ∉ s) : removeAll p ps s = s := by
  apply removeAll_of_not_containsSub
  cases hc : containsSub (p :: ps) s with
  | false => rfl
  | true => exact absurd (mem_of_containsSub hc a hpat) hs

/-- Removing a single code point is filtering it out. -/
theorem removeAll_single (a : Nat) :
    ∀ s : List Nat, removeAll a [] s = s.filter (fun c => !(c == a)) := by
  intro s
  induction s with
  | nil => simp [removeAll]
  | cons c cs ih =>
    rw [removeAll]
    by_cases hac : a = c
    · subst hac
      rw [if_pos (by simp [startsWith])]
      simp only [List.length_nil, List.drop_zero]
      simp [List.filter_cons, ih]
    · rw [if_neg (by simp [startsWith, hac])]
      simp [List.filter_cons, Ne.symm hac, ih]

/-- ASCII lowercasing is idempotent on a code point. -/
theorem lowerCp_idem (n : Nat) : lowerCp (lowerCp n) = lowerCp n := by
  unfold lowerCp; split_ifs <;> omega

/-- Lowercasing never produces the path separator `/` (47). -/
theorem lowerCp_ne_47 {n : Nat} (h : n ≠ 47) : lowerCp n ≠ 47 := by
  unfold lowerCp; split_ifs <;> omega

/-- The path separator `/` (47) never survives `clean`. -/
theorem not_mem_47_clean (s : List Nat) : 47 ∉ clean s := by
  unfold clean
  intro h
  rcases List.mem_map.mp h with ⟨c, hc, hlc⟩
  rw [removeAll_single] at hc
  rcases List.mem_filter.mp hc with ⟨-, hne⟩
  by_cases h47 : c = 47
  · simp [h47] at hne
  · exact lowerCp_ne_47 h47 hlc

/-- Every code point of `clean s` is fixed by lowercasing. -/
theorem lowerCp_fixed_clean {s : List Nat} : ∀ a ∈ clean s, lowerCp a = a := by
  intro a ha
  rcases List.mem_map.mp ha with ⟨c, -, hlc⟩
  rw [← hlc]
  exact lowerCp_idem c

/-- Mapping a function that fixes every element is the identity. -/
theorem map_eq_self_of_fixed {f : Nat → Nat} :
    ∀ {l : List Nat}, (∀ a ∈ l, f a = a) → l.map f = l := by
  intro l
  induction l with
  | nil => intro _; rfl
  | cons c cs ih =>
    intro h
    rw [List.map_cons, h c (List.mem_cons_self c cs),
      ih fun a ha => h a (List.mem_cons_of_mem c ha)]

/-- A string all of whose code points are `/`-free, `www.`-free and
fixed by lowercasing is fixed by `clean`. -/
theorem clean_fixed {y : List Nat} (h47 : 47 ∉ y)
    (hw : containsSub (str "www.") y = false)
    (hfix : ∀ a ∈ y, lowerCp a = a) : clean y = y := by
  unfold clean
  have e1 : removeAll 104 (str "ttp://") y = y :=
    removeAll_of_not_mem (a := 47) (by decide) h47
  have e2 : removeAll 104 (str "ttps://") y = y :=
    removeAll_of_not_mem (a := 47) (by decide) h47
  have hw' : containsSub (119 :: str "ww.") y = false := hw
  have e3 : removeAll 119 (str "ww.") y = y :=
    removeAll_of_not_containsSub hw'
  have e4 : removeAll 47 [] y = y :=
    removeAll_of_not_mem (a := 47) (List.mem_cons_self 47 []) h47
  rw [e1, e2, e3, e4]
  exact map_eq_self_of_fixed hfix

/-- C2 (amended): `clean` is idempotent on every input whose normal
form `clean x` no longer contains the substring `www.`; a second pass
changes nothing there. -/
theorem clean_idempotent_of_no_www (x : List Nat)
    (h : containsSub (str "www.") (clean x) = false) :
    clean (clean x) = clean x :=
  clean_fixed (not_mem_47_clean x) h lowerCp_fixed_clean

/-- Witness for C2 (amended) at the spec's own example input. -/
theorem clean_idempotent_of_no_www_witness :
    containsSub (str "www.") (clean (str "https://www.Example.com/")) = false ∧
    clean (clean (str "https://www.Example.com/")) = clean (str "https://www.Example.com/") :=
  ⟨by simp [clean, str, removeAll, startsWith, containsSub, lowerCp],
   clean_idempotent_of_no_www (str "https://www.Example.com/")
     (by simp [clean, str, removeAll, startsWith, containsSub, lowerCp])⟩

/-- C2 (counterexample): `clean` is not idempotent as claimed.  At
`x = "WWW.x"` the first pass produces `"www.x"` (the replacement of
`"www."` runs before lowercasing, so the uppercase `WWW.` survives as
`www.`), and the second pass removes it. -/
theorem clean_not_idempotent :
    clean (clean (str "WWW.x")) ≠ clean (str "WWW.x") := by
  simp [clean, str, removeAll, startsWith, lowerCp]

/-- C3 (counterexample): `clean` is not the prefix-stripping
normalizer the spec describes.  At `"awww.b"` the code removes the
interior `"www."` and yields `"ab"`, while stripping only a leading
`"www."` would leave `"awww.b"` unchanged. -/
theorem clean_ne_specClean :
    clean (str "awww.b") ≠ specClean (str "awww.b") := by
  simp [clean, specClean, stripOnce, str, removeAll, startsWith, lowerCp]

/-- C3 (amended): `clean` replaces every occurrence of `http://`,
`https://`, `www.` and `/` anywhere in the string (not only leading
prefixes) before lowercasing; the spec's two concrete examples hold. -/
theorem clean_examples :
    clean (str "https://www.Example.com/") = str "example.com" ∧
    clean (str "http://Foo.org") = str "foo.org" := by
  constructor <;> simp [clean, str, removeAll, startsWith, lowerCp]

/-- The closed set `ratings = ["A", "B", "C", "D", "E"]` from the top
of `refresh_privacy_badges.py`.  Rating values are kept as Lean string
literals; only equality on them is ever used. -/
def ratings : List String := ["A", "B", "C", "D", "E"]

/-- One whole query chain
`requests.get(...).json()["parameters"]["services"]["hits"][0]["_source"]["rating"]`,
indexed by the query string: either an exception somewhere along the
chain (network failure, non-JSON body, missing key, empty hit list) or
the extracted rating string of the first hit. -/
abbrev Lookup := List Nat → Except Unit String

/-- The body of one `try` block of `get_rating`: run the query chain;
a rating inside the closed set returns, while an exception or an
out-of-set value falls through (`except: pass`). -/
def tryQuery (lookup : Lookup) (q : List Nat) : Option String :=
  match lookup q with
  | .ok rating => if ratings.contains rating then some rating else none
  | .error _ => none

/-- The resolver `get_rating` of `refresh_privacy_badges.py`: query by the
cleaned site name, then by the cleaned URL, and fall back to
`"none"`.  The two `Lookup` arguments stand for the two network
requests (`site = (name, urlMain)`); the plain `String` result (never
an exception) models the catch-all `except: pass` blocks. -/
def get_rating (lookup1 lookup2 : Lookup) (site : List Nat × List Nat) : String :=
  match tryQuery lookup1 (clean site.1) with
  | some rating => rating
  | none =>
    match tryQuery lookup2 (clean site.2) with
    | some rating => rating
    | none => "none"

/-- Equation: a parsed response reduces the `try` block to the
closed-set test. -/
theorem tryQuery_ok {lookup : Lookup} {q : List Nat} {rating : String}
    (h : lookup q = .ok rating) :
    tryQuery lookup q = if ratings.contains rating then some rating else none := by
  unfold tryQuery; rw [h]

/-- Equation: a raising query chain reduces the `try` block to a pass. -/
theorem tryQuery_err {lookup : Lookup} {q : List Nat} {e : Unit}
    (h : lookup q = .error e) : tryQuery lookup q = none := by
  unfold tryQuery; rw [h]

/-- A successful `try` block always yields a member of the closed set. -/
theorem tryQuery_mem {lookup : Lookup} {q : List Nat} {r : String}
    (h : tryQuery lookup q = some r) : r ∈ ratings := by
  cases hl : lookup q with
  | ok rating =>
    rw [tryQuery_ok hl] at h
    by_cases hr : ratings.contains rating = true
    · rw [if_pos hr] at h
      cases h
      exact List.mem_of_elem_eq_true hr
    · rw [if_neg hr] at h
      cases h
  | error e =>
    rw [tryQuery_err hl] at h
    cases h

/-- C4: when the name-based lookup parses and its first hit's rating
lies in the closed set, `get_rating` returns it and the URL-based
lookup cannot override it. -/
theorem get_rating_name_priority (lookup1 lookup2 : Lookup)
    (site : List Nat × List Nat) (r : String)
    (h1 : lookup1 (clean site.1) = .ok r) (h2 : ratings.contains r = true) :
    get_rating lookup1 lookup2 site = r := by
  unfold get_rating
  rw [tryQuery_ok h1, if_pos h2]

/-- Witness for C4: a name lookup answering `"B"` wins over a URL
lookup that would answer `"D"`. -/
theorem get_rating_name_priority_witness :
    ((fun _ => Except.ok "B" : Lookup) (clean (str "x")) = Except.ok "B") ∧
    ratings.contains "B" = true ∧
    get_rating (fun _ => .ok "B") (fun _ => .ok "D") (str "x", str "y") = "B" :=
  ⟨rfl, by decide,
   get_rating_name_priority (fun _ => .ok "B") (fun _ => .ok "D")
     (str "x", str "y") "B" rfl (by decide)⟩

/-- C5: whatever the two lookups do — raise (network failure,
non-JSON response, missing key, empty hit list) or answer with an
out-of-set value — if neither yields a rating in the closed set,
`get_rating` answers `"none"`; its `String` result type is the model
of "no exception escapes". -/
theorem get_rating_none_of_no_valid (lookup1 lookup2 : Lookup)
    (site : List Nat × List Nat)
    (h1 : ∀ r, lookup1 (clean site.1) = .ok r → ratings.contains r = false)
    (h2 : ∀ r, lookup2 (clean site.2) = .ok r → ratings.contains r = false) :
    get_rating lookup1 lookup2 site = "none" := by
  have e1 : tryQuery lookup1 (clean site.1) = none := by
    cases hl : lookup1 (clean site.1) with
    | ok rating => rw [tryQuery_ok hl, if_neg (by rw [h1 rating hl]; decide)]
    | error e => exact tryQuery_err hl
  have e2 : tryQuery lookup2 (clean site.2) = none := by
    cases hl : lookup2 (clean site.2) with
    | ok rating => rw [tryQuery_ok hl, if_neg (by rw [h2 rating hl]; decide)]
    | error e => exact tryQuery_err hl
  unfold get_rating
  rw [e1, e2]

/-- Witness for C5: a raising name lookup and a URL lookup answering
the out-of-set `"Z"` produce `"none"`. -/
theorem get_rating_none_of_no_valid_witness :
    get_rating (fun _ => .error ()) (fun _ => .ok "Z") (str "a", str "b") = "none" :=
  get_rating_none_of_no_valid (fun _ => .error ()) (fun _ => .ok "Z") (str "a", str "b")
    (fun r h => by cases h) (fun r h => by cases h; decide)

/-- C6: `get_rating` only ever answers inside the closed set
`A, B, C, D, E, none`; in particular an out-of-set `"Z"` from the
service is never accepted — the resolver behaves exactly as if that
lookup had raised, falling through to the URL lookup or `"none"`. -/
theorem get_rating_closed_set :
    (∀ (lookup1 lookup2 : Lookup) (site : List Nat × List Nat),
      get_rating lookup1 lookup2 site ∈ ["A", "B", "C", "D", "E", "none"]) ∧
    (∀ (lookup2 : Lookup) (site : List Nat × List Nat),
      get_rating (fun _ => .ok "Z") lookup2 site =
        get_rating (fun _ => .error ()) lookup2 site) := by
  constructor
  · intro lookup1 lookup2 site
    unfold get_rating
    cases hq1 : tryQuery lookup1 (clean site.1) with
    | some rating =>
      have hmem : rating ∈ ratings := tryQuery_mem hq1
      show rating ∈ ratings ++ ["none"]
      exact List.mem_append_left _ hmem
    | none =>
      cases hq2 : tryQuery lookup2 (clean site.2) with
      | some rating =>
        have hmem : rating ∈ ratings := tryQuery_mem hq2
        show rating ∈ ratings ++ ["none"]
        exact List.mem_append_left _ hmem
      | none => simp
  · intro lookup2 site
    unfold get_rating
    have ez : tryQuery (fun _ => Except.ok "Z") (clean site.1) = none := by
      rw [tryQuery_ok rfl, if_neg (by decide)]
    have ee : tryQuery (fun _ => Except.error ()) (clean site.1) = none :=
      tryQuery_err rfl
    rw [ez, ee]

/-- The metadata object stored under each site name of a catalog.
Only `urlMain` is ever read; a missing `urlMain` raises `KeyError`,
which `get_site_names` catches with `continue`. -/
structure SiteMeta where
  urlMain : Option (List Nat)
deriving DecidableEq

/-- A parsed input catalog (`sherlock.json` / `trace.json`): a JSON
object mapping site names to metadata, in document order.  Keys of a
parsed JSON object are pairwise distinct. -/
abbrev Catalog := List (List Nat × SiteMeta)

/-- Python `==` between a `str` and a two-element `list` is `False`
whatever their contents, so the `site not in sites` test of
`get_site_names` — a name string against `[name, url]` pairs — never
finds a match. -/
def pyStrEqListEntry (_name : List Nat) (_entry : List Nat × List Nat) : Bool :=
  false

/-- One catalog pass of `get_site_names`: for each site of the
catalog, when `site not in sites` (the always-passing `str`-vs-`list`
comparison) append `[site, cat[site]["urlMain"]]`; a missing
`urlMain` raises and the entry is skipped. -/
def addCatalog (sites0 : List (List Nat × List Nat)) (cat : Catalog) :
    List (List Nat × List Nat) :=
  cat.foldl
    (fun sites entry =>
      if sites.any (pyStrEqListEntry entry.1) then sites
      else
        match entry.2.urlMain with
        | some url => sites ++ [(entry.1, url)]
        | none => sites)
    sites0

/-- The aggregator `get_site_names` of `refresh_privacy_badges.py`: scan the
`sherlock.json` catalog, then the `trace.json` catalog. -/
def get_site_names (sherlock trace : Catalog) : List (List Nat × List Nat) :=
  addCatalog (addCatalog [] sherlock) trace

/-- The key list of a catalog. -/
def keys (cat : Catalog) : List (List Nat) := cat.map Prod.fst

/-- The pairs one catalog actually contributes: every entry whose
metadata carries `urlMain`, in catalog order. -/
def sitesOf (cat : Catalog) : List (List Nat × List Nat) :=
  cat.filterMap (fun entry => entry.2.urlMain.map (fun url => (entry.1, url)))

/-- Because the membership test never matches, one pass appends every
`urlMain`-carrying entry of the catalog. -/
theorem addCatalog_eq (cat : Catalog) :
    ∀ sites0, addCatalog sites0 cat = sites0 ++ sitesOf cat := by
  induction cat with
  | nil => intro sites0; simp [addCatalog, sitesOf]
  | cons entry rest ih =>
    intro sites0
    have hstep : addCatalog sites0 (entry :: rest) =
        addCatalog
          (match entry.2.urlMain with
            | some url => sites0 ++ [(entry.1, url)]
            | none => sites0) rest := by
      unfold addCatalog
      rw [List.foldl_cons]
      have hany : sites0.any (pyStrEqListEntry entry.1) = false := by
        simp [pyStrEqListEntry]
      rw [if_neg (by simp [hany])]
    rw [hstep, ih]
    unfold sitesOf
    rw [List.filterMap_cons]
    cases hu : entry.2.urlMain with
    | some url => simp [sitesOf]
    | none => simp [sitesOf]

/-- The aggregator is plain concatenation of the two catalogs'
contributions: no deduplication happens. -/
theorem get_site_names_eq (sherlock trace : Catalog) :
    get_site_names sherlock trace = sitesOf sherlock ++ sitesOf trace := by
  unfold get_site_names
  rw [addCatalog_eq, addCatalog_eq]
  simp

/-- The first spec catalog of claim C1: names `x`, `y`. -/
def sherlockAB : Catalog :=
  [(str "x", ⟨some (str "ux")⟩), (str "y", ⟨some (str "uy")⟩)]

/-- The second spec catalog of claim C1: names `y`, `z`. -/
def traceBC : Catalog :=
  [(str "y", ⟨some (str "uy2")⟩), (str "z", ⟨some (str "uz")⟩)]

/-- C1 (evaluation at the failing input): on catalog A with names
`x`, `y` and catalog B with names `y`, `z` the aggregator returns
four entries — `y` twice — not the three deduplicated entries the
spec promises; the dead `site not in sites` test (a `str` compared
against `[name, url]` lists) never drops anything. -/
theorem get_site_names_no_dedup :
    get_site_names sherlockAB traceBC =
      [(str "x", str "ux"), (str "y", str "uy"),
       (str "y", str "uy2"), (str "z", str "uz")] ∧
    (get_site_names sherlockAB traceBC).map Prod.fst ≠
      [str "x", str "y", str "z"] :=
  ⟨by decide, by decide⟩

/-- The object stored under each name of the output report:
`«privacyRating»: rating`. -/
structure RatingEntry where
  privacyRating : String
deriving DecidableEq

/-- Python dict assignment `d[k] = v`: overwrite in place when the
key exists (keeping its position), append otherwise. -/
def dictInsert (k : List Nat) (v : RatingEntry) :
    List (List Nat × RatingEntry) → List (List Nat × RatingEntry)
  | [] => [(k, v)]
  | (k', v') :: rest =>
    if k' = k then (k, v) :: rest else (k', v') :: dictInsert k v rest

/-- Python dict lookup `d[k]` on the output mapping. -/
def dictLookup (k : List Nat) :
    List (List Nat × RatingEntry) → Option RatingEntry
  | [] => none
  | (k', v) :: rest => if k' = k then some v else dictLookup k rest

/-- The data flow of the `__main__` loop, with the network abstracted
into `resolver` (the composition of `get_rating` with the two HTTP
calls): for each aggregated site in order, store
the resolver's answer under `site[0]`, wrapped as a `RatingEntry`. -/
def run_main (resolver : List Nat × List Nat → String)
    (sites : List (List Nat × List Nat)) : List (List Nat × RatingEntry) :=
  sites.foldl (fun acc site => dictInsert site.1 ⟨resolver site⟩ acc) []

/-- Decimal rendering of a number, as Python interpolates it into the
progress-bar suffix. -/
def natCps (n : Nat) : List Nat := (toString n).toList.map Char.toNat

/-- One console line produced by `printProgressBar`.  The float
formatting of the percentage is abstracted to the exact rational
`100 * iteration / total`; the bar uses the integer division of the
source.  `newline` records the extra `print()` once
`iteration == total`. -/
structure ProgressLine where
  pfx : List Nat
  bar : List Nat
  percent : Rat
  sfx : List Nat
  newline : Bool
deriving DecidableEq

/-- The reporter `printProgressBar` of `refresh_privacy_badges.py`: with
`total = 0` the percent computation `iteration / float(total)`
raises `ZeroDivisionError` (modelled by `Except.error ()`); otherwise
one line is rendered.  9608 and 45 are the code points of the fill
character `█` and of `-`. -/
def printProgressBar (iteration total : Nat) (pfx sfx : List Nat)
    (length : Nat) : Except Unit ProgressLine :=
  if total = 0 then .error ()
  else
    let filledLength := length * iteration / total
    let bar := List.replicate filledLength 9608 ++
      List.replicate (length - filledLength) 45
    .ok ⟨pfx, bar, (100 * (iteration : Rat)) / (total : Rat), sfx,
      iteration == total⟩

/-- The whole `__main__` loop including its console effect: the left
component accumulates `privacy_ratings`, the right component logs the
result of each `printProgressBar` call (suffix
`Complete (i+1/total)`, bar length 50).  After the loop the left
component is serialized once to `privacy_ratings.json`. -/
def main_loop (resolver : List Nat × List Nat → String)
    (sites : List (List Nat × List Nat)) :
    List (List Nat × RatingEntry) × List (Except Unit ProgressLine) :=
  sites.enum.foldl
    (fun acc is =>
      (dictInsert is.2.1 ⟨resolver is.2⟩ acc.1,
       acc.2 ++ [printProgressBar (is.1 + 1) sites.length (str "Progress:")
         (str "Complete (" ++ natCps (is.1 + 1) ++ str "/" ++
           natCps sites.length ++ str ")") 50]))
    ([], [])

/-- C7: the orchestration resolves the entries in order, accumulates
a mapping from site name to its `privacyRating` object, and the
mapping written once at the end equals the spec's expected report:
with a resolver answering `"A"` for `site1` and `"none"` for `site2`,
the report maps `site1` to rating `A` and `site2` to rating `none`. -/
theorem main_loop_output_shape :
    (main_loop (fun site => if site.1 = str "site1" then "A" else "none")
      [(str "site1", str "url1"), (str "site2", str "url2")]).1 =
    [(str "site1", ⟨"A"⟩), (str "site2", ⟨"none"⟩)] := by
  decide

/-- The progress log never flows back into the accumulator: over any
suffix of the enumerated site list, the left component of the
orchestration step ignores the index and the log. -/
theorem main_loop_fst_aux (resolver : List Nat × List Nat → String)
    (total : Nat) :
    ∀ (l : List (List Nat × List Nat)) (k : Nat)
      (d : List (List Nat × RatingEntry)) (log : List (Except Unit ProgressLine)),
      (List.foldl
        (fun acc is =>
          (dictInsert is.2.1 ⟨resolver is.2⟩ acc.1,
           acc.2 ++ [printProgressBar (is.1 + 1) total (str "Progress:")
             (str "Complete (" ++ natCps (is.1 + 1) ++ str "/" ++
               natCps total ++ str ")") 50]))
        (d, log) (List.enumFrom k l)).1 =
      List.foldl (fun acc site => dictInsert site.1 ⟨resolver site⟩ acc) d l := by
  intro l
  induction l with
  | nil => intro k d log; rfl
  | cons site rest ih =>
    intro k d log
    rw [List.enumFrom_cons, List.foldl_cons, List.foldl_cons]
    exact ih (k + 1) (dictInsert site.1 ⟨resolver site⟩ d) _

/-- C8: progress reporting has no effect on the data flow — the
accumulated mapping of the full orchestration (which invokes
`printProgressBar` at every iteration) is exactly `run_main`, the
same loop with the reporter omitted; the reporter reads only the
index, the total and display parameters. -/
theorem main_loop_fst_eq_run_main (resolver : List Nat × List Nat → String)
    (sites : List (List Nat × List Nat)) :
    (main_loop resolver sites).1 = run_main resolver sites := by
  unfold main_loop run_main
  rw [show sites.enum = List.enumFrom 0 sites from rfl]
  exact main_loop_fst_aux resolver sites.length sites 0 [] []

/-- C10: `printProgressBar` divides by `total` and fails on every
call with `total = 0`; the orchestration keeps the precondition —
with no aggregated entries the loop body never runs, the reporter is
never called (empty log), and the run still writes the empty
mapping. -/
theorem printProgressBar_total_zero_and_empty_run :
    (∀ (iteration : Nat) (pfx sfx : List Nat) (length : Nat),
      printProgressBar iteration 0 pfx sfx length = .error ()) ∧
    (∀ resolver, main_loop resolver [] = ([], [])) ∧
    (∀ resolver, run_main resolver [] = []) :=
  ⟨fun _ _ _ _ => rfl, fun _ => rfl, fun _ => rfl⟩

/-- Looking up a key right after writing it finds the new value. -/
theorem dictLookup_insert_self (k : List Nat) (v : RatingEntry) :
    ∀ d, dictLookup k (dictInsert k v d) = some v := by
  intro d
  induction d with
  | nil => simp [dictInsert, dictLookup]
  | cons kv rest ih =>
    obtain ⟨k0, v0⟩ := kv
    unfold dictInsert
    by_cases h0 : k0 = k
    · rw [if_pos h0]
      unfold dictLookup
      rw [if_pos rfl]
    · rw [if_neg h0]
      unfold dictLookup
      rw [if_neg h0]
      exact ih

/-- Writing one key leaves the lookup of any other key unchanged. -/
theorem dictLookup_insert_ne {k k' : List Nat} (v : RatingEntry)
    (h : k' ≠ k) : ∀ d, dictLookup k (dictInsert k' v d) = dictLookup k d := by
  intro d
  induction d with
  | nil => simp [dictInsert, dictLookup, h]
  | cons kv rest ih =>
    obtain ⟨k0, v0⟩ := kv
    unfold dictInsert
    by_cases h0 : k0 = k'
    · rw [if_pos h0]
      unfold dictLookup
      rw [if_neg h, if_neg (h0 ▸ h)]
    · rw [if_neg h0]
      unfold dictLookup
      by_cases hk : k0 = k
      · rw [if_pos hk, if_pos hk]
      · rw [if_neg hk, if_neg hk]
        exact ih

/-- When no processed site bears the name `n`, the loop leaves the
mapping at `n` untouched. -/
theorem run_loop_lookup_none (resolver : List Nat × List Nat → String)
    (n : List Nat) :
    ∀ (sites : List (List Nat × List Nat)) (acc : List (List Nat × RatingEntry)),
      sites.reverse.find? (fun s => s.1 == n) = none →
      dictLookup n
        (sites.foldl (fun acc site => dictInsert site.1 ⟨resolver site⟩ acc) acc) =
      dictLookup n acc := by
  intro sites
  induction sites with
  | nil => intro acc h; rfl
  | cons site rest ih =>
    intro acc h
    rw [List.reverse_cons, List.find?_append] at h
    cases hr : rest.reverse.find? (fun s => s.1 == n) with
    | some s1 => rw [hr] at h; simp at h
    | none =>
      rw [hr] at h
      simp only [Option.none_or] at h
      have hne : site.1 ≠ n := by
        cases hp : (site.1 == n) with
        | true => simp [List.find?, hp] at h
        | false => simpa using hp
      rw [List.foldl_cons]
      rw [ih (dictInsert site.1 ⟨resolver site⟩ acc) hr]
      exact dictLookup_insert_ne _ hne acc

/-- The mapping's value at `n` comes from the last processed site
named `n` (the first one found scanning from the right). -/
theorem run_loop_lookup_some (resolver : List Nat × List Nat → String)
    (n : List Nat) :
    ∀ (sites : List (List Nat × List Nat)) (acc : List (List Nat × RatingEntry))
      (s0 : List Nat × List Nat),
      sites.reverse.find? (fun s => s.1 == n) = some s0 →
      dictLookup n
        (sites.foldl (fun acc site => dictInsert site.1 ⟨resolver site⟩ acc) acc) =
      some ⟨resolver s0⟩ := by
  intro sites
  induction sites with
  | nil => intro acc s0 h; cases h
  | cons site rest ih =>
    intro acc s0 h
    rw [List.reverse_cons, List.find?_append] at h
    cases hr : rest.reverse.find? (fun s => s.1 == n) with
    | some s1 =>
      rw [hr] at h
      simp only [Option.or] at h
      injection h with h1
      rw [List.foldl_cons, ← h1]
      exact ih _ s1 hr
    | none =>
      rw [hr] at h
      simp only [Option.none_or] at h
      cases hp : (site.1 == n) with
      | false => simp [List.find?, hp] at h
      | true =>
        have hs0 : site = s0 := by simpa [List.find?, hp] using h
        have heq : site.1 = n := by simpa using hp
        rw [List.foldl_cons,
          run_loop_lookup_none resolver n rest _ hr, ← hs0, ← heq]
        exact dictLookup_insert_self site.1 ⟨resolver site⟩ acc

/-- Scanning for the first hit returns the head of the filtered list. -/
theorem find?_eq_head?_filter {α : Type} (p : α → Bool) :
    ∀ l : List α, l.find? p = (l.filter p).head? := by
  intro l
  induction l with
  | nil => rfl
  | cons c cs ih =>
    rw [List.find?_cons, List.filter_cons]
    cases hp : p c with
    | true => simp
    | false =>
      simp only [hp, Bool.false_eq_true, if_false]
      exact ih

/-- A name absent from a catalog contributes nothing to its pairs. -/
theorem sitesOf_filter_of_not_mem {n : List Nat} :
    ∀ {cat : Catalog}, n ∉ keys cat →
      (sitesOf cat).filter (fun s => s.1 == n) = [] := by
  intro cat
  induction cat with
  | nil => intro _; rfl
  | cons entry rest ih =>
    obtain ⟨k, m⟩ := entry
    intro h
    rw [keys, List.map_cons, List.mem_cons, not_or] at h
    have hk : (k == n) = false := by
      cases hkn : (k == n) with
      | true =>
        have hkn' : k = n := by simpa using hkn
        exact absurd hkn'.symm h.1
      | false => rfl
    unfold sitesOf
    cases hu : m.urlMain with
    | none =>
      rw [List.filterMap_cons_none (by simp [hu])]
      exact ih h.2
    | some u =>
      rw [List.filterMap_cons_some
        (f := fun entry => Option.map (fun url => (entry.1, url)) entry.2.urlMain)
        (a := (k, m)) (b := (k, u)) (by simp [hu])]
      rw [List.filter_cons]
      simp only [hk, Bool.false_eq_true, if_false]
      exact ih h.2

/-- With the distinct keys of a parsed JSON object, a name present in
the catalog with a `urlMain` contributes exactly one pair. -/
theorem sitesOf_filter_unique {n : List Nat} {m : SiteMeta} {u : List Nat} :
    ∀ {cat : Catalog}, (keys cat).Nodup → (n, m) ∈ cat → m.urlMain = some u →
      (sitesOf cat).filter (fun s => s.1 == n) = [(n, u)] := by
  intro cat
  induction cat with
  | nil => intro _ hmem _; cases hmem
  | cons entry rest ih =>
    obtain ⟨k, m0⟩ := entry
    intro hnd hmem hu
    rw [keys, List.map_cons, List.nodup_cons] at hnd
    rcases List.mem_cons.mp hmem with hhead | htail
    · injection hhead with hn hm
      subst hn
      subst hm
      unfold sitesOf
      rw [List.filterMap_cons_some
        (f := fun entry => Option.map (fun url => (entry.1, url)) entry.2.urlMain)
        (a := (n, m)) (b := (n, u)) (by simp [hu])]
      rw [List.filter_cons]
      simp only [beq_self_eq_true, if_true]
      have hne : n ∉ keys rest := hnd.1
      have hrest := sitesOf_filter_of_not_mem hne
      unfold sitesOf at hrest
      rw [hrest]
    · have hnk : n ∈ List.map Prod.fst rest :=
        List.mem_map.mpr ⟨(n, m), htail, rfl⟩
      have hk : (k == n) = false := by
        cases hkn : (k == n) with
        | true =>
          have hkn' : k = n := by simpa using hkn
          exact absurd (hkn' ▸ hnd.1) (fun hc => hc hnk)
        | false => rfl
      unfold sitesOf
      cases hum : m0.urlMain with
      | none =>
        rw [List.filterMap_cons_none (by simp [hum])]
        exact ih hnd.2 htail hu
      | some u0 =>
        rw [List.filterMap_cons_some
          (f := fun entry => Option.map (fun url => (entry.1, url)) entry.2.urlMain)
          (a := (k, m0)) (b := (k, u0)) (by simp [hum])]
        rw [List.filter_cons]
        simp only [hk, Bool.false_eq_true, if_false]
        exact ih hnd.2 htail hu

/-- The report's value at a name is produced by the last aggregated
site bearing that name. -/
theorem run_main_lookup (resolver : List Nat × List Nat → String)
    (n : List Nat) (sites : List (List Nat × List Nat)) :
    dictLookup n (run_main resolver sites) =
      (sites.reverse.find? (fun s => s.1 == n)).map
        (fun s => (⟨resolver s⟩ : RatingEntry)) := by
  unfold run_main
  cases hf : sites.reverse.find? (fun s => s.1 == n) with
  | some s0 => rw [run_loop_lookup_some resolver n sites [] s0 hf]; rfl
  | none => rw [run_loop_lookup_none resolver n sites [] hf]; rfl

/-- C9: a name carried by both catalogs (each with a `urlMain`) is
aggregated once per catalog — the dead `str`-vs-`list` membership
test drops neither — both entries are resolved, and the report keeps
the rating resolved from the second (trace.json) entry: the last
write to `privacy_ratings[name]` wins. -/
theorem duplicate_name_resolved_twice_last_wins
    (sherlock trace : Catalog) (n : List Nat) (m1 m2 : SiteMeta)
    (u1 u2 : List Nat) (resolver : List Nat × List Nat → String)
    (hnd1 : (keys sherlock).Nodup) (hnd2 : (keys trace).Nodup)
    (h1 : (n, m1) ∈ sherlock) (hu1 : m1.urlMain = some u1)
    (h2 : (n, m2) ∈ trace) (hu2 : m2.urlMain = some u2) :
    (get_site_names sherlock trace).filter (fun s => s.1 == n) =
      [(n, u1), (n, u2)] ∧
    dictLookup n (run_main resolver (get_site_names sherlock trace)) =
      some ⟨resolver (n, u2)⟩ := by
  have hfilter : (get_site_names sherlock trace).filter (fun s => s.1 == n) =
      [(n, u1), (n, u2)] := by
    rw [get_site_names_eq, List.filter_append,
      sitesOf_filter_unique hnd1 h1 hu1, sitesOf_filter_unique hnd2 h2 hu2]
    rfl
  refine ⟨hfilter, ?_⟩
  rw [run_main_lookup, find?_eq_head?_filter, List.filter_reverse, hfilter]
  rfl

/-- Witness for C9: the name `y` sits in both spec catalogs; the
aggregator emits it twice and the report keeps the rating of the
trace.json entry (whose URL is `uy2`). -/
theorem duplicate_name_resolved_twice_last_wins_witness :
    (keys sherlockAB).Nodup ∧ (keys traceBC).Nodup ∧
    ((str "y", (⟨some (str "uy")⟩ : SiteMeta)) ∈ sherlockAB) ∧
    ((str "y", (⟨some (str "uy2")⟩ : SiteMeta)) ∈ traceBC) ∧
    (get_site_names sherlockAB traceBC).filter (fun s => s.1 == str "y") =
      [(str "y", str "uy"), (str "y", str "uy2")] ∧
    dictLookup (str "y")
      (run_main (fun s => if s.2 = str "uy2" then "D" else "A")
        (get_site_names sherlockAB traceBC)) = some ⟨"D"⟩ := by
  have h := duplicate_name_resolved_twice_last_wins sherlockAB traceBC (str "y")
    ⟨some (str "uy")⟩ ⟨some (str "uy2")⟩ (str "uy") (str "uy2")
    (fun s => if s.2 = str "uy2" then "D" else "A")
    (by decide) (by decide) (by decide) rfl (by decide) rfl
  refine ⟨by decide, by decide, by decide, by decide, h.1, ?_⟩
  rw [h.2]
  decide
